import Mathlib

/-!
Verification of the `oyestyring_kunnskap` repository (files `hent_wikipedia.py`
and `smart_server.py`) against its natural-language specification.

Strings are modelled as `List Char`; Python's text primitives (`str.strip`,
`str.split`, `str.lower`, the substring test `in`) are embedded as executable
Lean functions below, each one translated from the corresponding Python
semantics as used by the source files.
-/

/-- Characters treated as whitespace by Python's `str.strip()` and `str.split()`
(ASCII whitespace; the repository's data never meets the exotic Unicode spaces). -/
def pyIsSpace (c : Char) : Bool :=
  c = ' ' || c = '\t' || c = '\n' || c = '\r' || c = '\x0b' || c = '\x0c'

/-- Python `str.lower` on one character, modelled for the character repertoire of
this repository: ASCII letters plus the Norwegian letters Æ, Ø, Å that appear in
the sources' vocabulary and article titles. -/
def pyToLower (c : Char) : Char :=
  if c = 'Æ' then 'æ' else if c = 'Ø' then 'ø' else if c = 'Å' then 'å'
  else c.toLower

/-- Python `str.lower` on a whole string. -/
def pyLower (s : List Char) : List Char := s.map pyToLower

/-- Does `hay` start with `needle`? Helper for Python's substring test. -/
def startsWith : List Char → List Char → Bool
  | _, [] => true
  | [], _ :: _ => false
  | c :: cs, d :: ds => if c = d then startsWith cs ds else false

/-- Python's substring test `needle in hay`. -/
def pyIn (needle : List Char) : List Char → Bool
  | [] => startsWith [] needle
  | c :: cs => startsWith (c :: cs) needle || pyIn needle cs

/-- The proposition that `needle` occurs contiguously inside `hay`. -/
def Occurs (needle hay : List Char) : Prop :=
  ∃ pre post, hay = pre ++ needle ++ post

theorem startsWith_iff (hay needle : List Char) :
    startsWith hay needle = true ↔ ∃ rest, hay = needle ++ rest := by
  induction needle generalizing hay with
  | nil =>
    simp [startsWith.eq_def]
  | cons d ds ih =>
    cases hay with
    | nil => simp [startsWith]
    | cons c cs =>
      simp only [startsWith]
      by_cases h : c = d
      · subst h
        rw [if_pos rfl, ih]
        constructor
        · rintro ⟨rest, hr⟩
          exact ⟨rest, by rw [List.cons_append, hr]⟩
        · rintro ⟨rest, hr⟩
          rw [List.cons_append] at hr
          injection hr with h1 h2
          exact ⟨rest, h2⟩
      · rw [if_neg h]
        constructor
        · intro hfalse
          cases hfalse
        · rintro ⟨rest, heq⟩
          injection heq with h1 h2
          exact absurd h1 h

theorem pyIn_iff (needle hay : List Char) :
    pyIn needle hay = true ↔ Occurs needle hay := by
  induction hay with
  | nil =>
    simp only [pyIn, startsWith_iff, Occurs]
    constructor
    · rintro ⟨rest, heq⟩
      exact ⟨[], rest, by simpa using heq⟩
    · rintro ⟨pre, post, heq⟩
      have h1 := List.append_eq_nil.mp heq.symm
      have h2 := List.append_eq_nil.mp h1.1
      exact ⟨[], by simp [h2.2]⟩
  | cons c cs ih =>
    simp only [pyIn, Bool.or_eq_true, ih, startsWith_iff, Occurs]
    constructor
    · rintro (⟨rest, heq⟩ | ⟨pre, post, heq⟩)
      · exact ⟨[], rest, by simpa using heq⟩
      · exact ⟨c :: pre, post, by simp [heq]⟩
    · rintro ⟨pre, post, heq⟩
      cases pre with
      | nil => exact Or.inl ⟨post, by simpa using heq⟩
      | cons p ps =>
        injection heq with h1 h2
        exact Or.inr ⟨ps, post, h2⟩

/-- Python `str.strip()`: drop whitespace from both ends. -/
def pyStrip (s : List Char) : List Char :=
  ((s.dropWhile pyIsSpace).reverse.dropWhile pyIsSpace).reverse

theorem length_pyStrip_le (s : List Char) : (pyStrip s).length ≤ s.length := by
  unfold pyStrip
  calc ((s.dropWhile pyIsSpace).reverse.dropWhile pyIsSpace).reverse.length
      = ((s.dropWhile pyIsSpace).reverse.dropWhile pyIsSpace).length := by
        rw [List.length_reverse]
    _ ≤ (s.dropWhile pyIsSpace).reverse.length :=
        ((s.dropWhile pyIsSpace).reverse.dropWhile_suffix pyIsSpace).length_le
    _ = (s.dropWhile pyIsSpace).length := by rw [List.length_reverse]
    _ ≤ s.length := (s.dropWhile_suffix pyIsSpace).length_le

theorem filter_dropWhile {α : Type} {p q : α → Bool}
    (hpq : ∀ a, p a = true → q a = false) (l : List α) :
    (l.dropWhile p).filter q = l.filter q := by
  induction l with
  | nil => rfl
  | cons a l ih =>
    by_cases h : p a = true
    · rw [List.dropWhile_cons_of_pos h, ih, List.filter_cons, hpq a h]
      simp
    · rw [List.dropWhile_cons_of_neg (by simp [h])]

/-- Stripping only removes whitespace: the non-whitespace characters survive. -/
theorem filter_pyStrip (s : List Char) :
    (pyStrip s).filter (fun c => !pyIsSpace c) = s.filter (fun c => !pyIsSpace c) := by
  have hpq : ∀ c, pyIsSpace c = true → (!pyIsSpace c) = false := by
    intro c hc
    simp [hc]
  unfold pyStrip
  rw [List.filter_reverse, filter_dropWhile hpq, List.filter_reverse,
    filter_dropWhile hpq, List.reverse_reverse]

/-- Split a list into the (possibly empty) runs of elements lying between
separator elements, as Python's `str.split(sep)` does on characters. -/
def splitRuns {α : Type} (p : α → Bool) : List α → List (List α)
  | [] => [[]]
  | a :: as =>
    if p a then [] :: splitRuns p as
    else (a :: (splitRuns p as).headI) :: (splitRuns p as).tail

theorem splitRuns_ne_nil {α : Type} (p : α → Bool) (l : List α) :
    splitRuns p l ≠ [] := by
  cases l with
  | nil => simp [splitRuns]
  | cons a as =>
    simp only [splitRuns]
    split <;> simp

/-- Splitting, then keeping only elements that are never separators, loses
nothing: useful because `'\n'` is itself whitespace. -/
theorem flatten_map_filter_splitRuns {α : Type} {p q : α → Bool}
    (hpq : ∀ a, p a = true → q a = false) (l : List α) :
    ((splitRuns p l).map (List.filter q)).flatten = l.filter q := by
  induction l with
  | nil => rfl
  | cons a as ih =>
    simp only [splitRuns]
    by_cases h : p a = true
    · rw [if_pos h]
      simp only [List.map_cons, List.flatten_cons, List.filter_nil, List.nil_append]
      rw [ih, List.filter_cons, hpq a h]
      simp
    · rw [if_neg h]
      obtain ⟨r0, rs, hr⟩ := List.exists_cons_of_ne_nil (splitRuns_ne_nil p as)
      have ih2 : r0.filter q ++ (rs.map (List.filter q)).flatten = as.filter q := by
        rw [hr] at ih
        simpa using ih
      rw [hr]
      simp only [List.headI_cons, List.tail_cons, List.map_cons, List.flatten_cons]
      rw [List.filter_cons]
      by_cases hq : q a = true
      · rw [if_pos hq, List.filter_cons, if_pos hq, List.cons_append, ih2]
      · rw [if_neg hq, List.filter_cons, if_neg hq, ih2]

/-- Every non-separator element of the list lands inside one of the runs. -/
theorem exists_run_of_mem {α : Type} {p : α → Bool} {x : α} {l : List α}
    (hx : x ∈ l) (hpx : p x = false) :
    ∃ run ∈ splitRuns p l, x ∈ run := by
  induction l with
  | nil => cases hx
  | cons a as ih =>
    rcases List.mem_cons.mp hx with rfl | hmem
    · refine ⟨x :: (splitRuns p as).headI, ?_, List.mem_cons_self _ _⟩
      simp [splitRuns, hpx]
    · obtain ⟨run, hrun, hxrun⟩ := ih hmem
      by_cases h : p a = true
      · exact ⟨run, by simp [splitRuns, h, hrun], hxrun⟩
      · obtain ⟨r0, rs, hr⟩ := List.exists_cons_of_ne_nil (splitRuns_ne_nil p as)
        rw [hr] at hrun
        rcases List.mem_cons.mp hrun with rfl | htl
        · exact ⟨a :: run, by simp [splitRuns, h, hr], List.mem_cons_of_mem _ hxrun⟩
        · exact ⟨run, by simp [splitRuns, h, hr, htl], hxrun⟩

/-- Join a list of lines with single newlines (inverse view of line splitting,
used to talk about blank-line-delimited paragraphs). -/
def joinNL : List (List Char) → List Char
  | [] => []
  | [l] => l
  | l :: l2 :: ls => l ++ '\n' :: joinNL (l2 :: ls)

theorem length_le_joinNL {x : List Char} {r : List (List Char)} (hx : x ∈ r) :
    x.length ≤ (joinNL r).length := by
  induction r with
  | nil => cases hx
  | cons a rs ih =>
    cases rs with
    | nil =>
      rw [List.mem_singleton.mp hx]
      simp [joinNL]
    | cons b bs =>
      rcases List.mem_cons.mp hx with rfl | hmem
      · simp [joinNL]
      · have h2 := ih hmem
        simp only [joinNL, List.length_append, List.length_cons]
        omega

/-! ## The chunker (`WikipediaKnowledgeBase.chunk_text`, hent_wikipedia.py 63-82) -/

/-- The paragraph separator `"\n\n"` appended by `chunk_text`. -/
def nl2 : List Char := ['\n', '\n']

/-- The paragraph list `[p.strip() for p in text.split('\n') if p.strip()]`
(hent_wikipedia.py line 67): the text is split at every single newline, each
piece is stripped, and whitespace-only pieces are dropped. -/
def chunkParagraphs (text : List Char) : List (List Char) :=
  ((splitRuns (fun c => decide (c = '\n')) text).map pyStrip).filter (fun p => !p.isEmpty)

/-- Loop of `chunk_text` (hent_wikipedia.py lines 71-80) with the running buffer
`cur` made explicit, including the final flush of a non-empty buffer. -/
def chunkAux (size : Nat) : List (List Char) → List Char → List (List Char)
  | [], cur => if cur.isEmpty then [] else [pyStrip cur]
  | p :: ps, cur =>
    if cur.length + p.length < size then chunkAux size ps (cur ++ p ++ nl2)
    else (if cur.isEmpty then [] else [pyStrip cur]) ++ chunkAux size ps (p ++ nl2)

/-- `WikipediaKnowledgeBase.chunk_text(text, chunk_size=1000, overlap=200)`
(hent_wikipedia.py lines 63-82).  The `overlap` argument is accepted and
ignored, exactly as in the source. -/
def chunk_text (text : List Char) (chunk_size : Nat) (overlap : Nat) : List (List Char) :=
  chunkAux chunk_size (chunkParagraphs text) []

/-- Raw blank-line-delimited paragraphs of a text: maximal runs of non-blank
lines (a blank line being a whitespace-only line), joined back with the
newlines that separated them. -/
def blankParasRaw (text : List Char) : List (List Char) :=
  ((splitRuns (fun l => (pyStrip l).isEmpty) (splitRuns (fun c => decide (c = '\n')) text)).filter
    (fun r => !r.isEmpty)).map joinNL

/-- Modelled from the words of claim C3 / spec §4.1: a chunker that splits the
input into paragraphs on blank-line boundaries, discards whitespace-only
paragraphs, trims each, and then runs the same greedy accumulation loop as the
code.  This is the claim-side definition, to be compared with `chunk_text`. -/
def chunk_text_spec (text : List Char) (chunk_size : Nat) : List (List Char) :=
  chunkAux chunk_size (((blankParasRaw text).map pyStrip).filter (fun p => !p.isEmpty)) []

/-- Amended claim C3's chunker: split at every newline (each non-blank line is
one paragraph; no blank line is needed between paragraphs), discard
whitespace-only lines, trim each; then greedily accumulate: when
`len(buffer) + len(nextParagraph) >= targetSize` close the non-empty buffer as
a trimmed chunk and start a new buffer with the pending paragraph, otherwise
append the paragraph plus the two-newline separator; finally flush any
non-empty buffer as a last trimmed chunk. -/
def chunk_text_amended (text : List Char) (chunk_size : Nat) : List (List Char) :=
  let paragraphs :=
    ((splitRuns (fun c => decide (c = '\n')) text).map pyStrip).filter (fun p => !p.isEmpty)
  let st := paragraphs.foldl
    (fun (st : List (List Char) × List Char) p =>
      if st.2.length + p.length < chunk_size then (st.1, st.2 ++ p ++ nl2)
      else (st.1 ++ (if st.2.isEmpty then [] else [pyStrip st.2]), p ++ nl2))
    ([], [])
  st.1 ++ (if st.2.isEmpty then [] else [pyStrip st.2])

theorem chunkAux_foldl (size : Nat) (ps : List (List Char)) :
    ∀ (acc : List (List Char)) (cur : List Char),
      (ps.foldl
        (fun (st : List (List Char) × List Char) p =>
          if st.2.length + p.length < size then (st.1, st.2 ++ p ++ nl2)
          else (st.1 ++ (if st.2.isEmpty then [] else [pyStrip st.2]), p ++ nl2))
        (acc, cur)).1 ++
      (if (ps.foldl
        (fun (st : List (List Char) × List Char) p =>
          if st.2.length + p.length < size then (st.1, st.2 ++ p ++ nl2)
          else (st.1 ++ (if st.2.isEmpty then [] else [pyStrip st.2]), p ++ nl2))
        (acc, cur)).2.isEmpty then [] else
        [pyStrip (ps.foldl
          (fun (st : List (List Char) × List Char) p =>
            if st.2.length + p.length < size then (st.1, st.2 ++ p ++ nl2)
            else (st.1 ++ (if st.2.isEmpty then [] else [pyStrip st.2]), p ++ nl2))
          (acc, cur)).2]) =
      acc ++ chunkAux size ps cur := by
  induction ps with
  | nil =>
    intro acc cur
    simp [chunkAux]
  | cons p ps ih =>
    intro acc cur
    simp only [List.foldl_cons, chunkAux]
    by_cases h : cur.length + p.length < size
    · rw [if_pos h, if_pos h]
      exact ih acc (cur ++ p ++ nl2)
    · rw [if_neg h, if_neg h]
      rw [ih (acc ++ (if cur.isEmpty then [] else [pyStrip cur])) (p ++ nl2),
        List.append_assoc]

theorem filter_nws_nl2 : nl2.filter (fun c => !pyIsSpace c) = [] := by decide

theorem flatten_map_filter_of_nonempty {α β : Type} (f : List α → List β) (hf : f [] = [])
    (L : List (List α)) :
    ((L.filter (fun x => !x.isEmpty)).map f).flatten = (L.map f).flatten := by
  induction L with
  | nil => rfl
  | cons a L ih =>
    by_cases h : a.isEmpty
    · have ha : a = [] := by simpa using h
      rw [List.filter_cons, ha]
      simp [hf, ih]
    · rw [List.filter_cons]
      simp only [h, Bool.not_false, if_pos]
      simp [ih]

theorem filter_flatten_chunkAux (size : Nat) (ps : List (List Char)) :
    ∀ cur : List Char,
      (chunkAux size ps cur).flatten.filter (fun c => !pyIsSpace c) =
        cur.filter (fun c => !pyIsSpace c) ++
          (ps.map (List.filter (fun c => !pyIsSpace c))).flatten := by
  induction ps with
  | nil =>
    intro cur
    by_cases h : cur.isEmpty
    · have hc : cur = [] := by simpa using h
      simp [chunkAux, h, hc]
    · simp [chunkAux, h, filter_pyStrip]
  | cons p ps ih =>
    intro cur
    simp only [chunkAux]
    by_cases h : cur.length + p.length < size
    · rw [if_pos h, ih]
      simp only [List.filter_append, filter_nws_nl2, List.append_nil, List.map_cons,
        List.flatten_cons, List.append_assoc]
    · rw [if_neg h, List.flatten_append, List.filter_append, ih]
      by_cases hemp : cur.isEmpty
      · have hc : cur = [] := by simpa using hemp
        simp [hemp, hc, List.filter_append, filter_nws_nl2]
      · simp [hemp, filter_pyStrip, List.filter_append, filter_nws_nl2]

/-- Claim C5: chunking loses no non-whitespace character of the input and
preserves their order — filtering whitespace out of the concatenation of the
chunks gives exactly the whitespace-filtered input text.  Determinism is
immediate since `chunk_text` is a function of the text and the parameters. -/
theorem chunk_text_preserves_content (text : List Char) (size ov : Nat) :
    (chunk_text text size ov).flatten.filter (fun c => !pyIsSpace c) =
      text.filter (fun c => !pyIsSpace c) := by
  unfold chunk_text
  rw [filter_flatten_chunkAux]
  simp only [List.filter_nil, List.nil_append]
  unfold chunkParagraphs
  rw [flatten_map_filter_of_nonempty _ rfl, List.map_map]
  have hmap : (splitRuns (fun c => decide (c = '\n')) text).map
      (List.filter (fun c => !pyIsSpace c) ∘ pyStrip) =
      (splitRuns (fun c => decide (c = '\n')) text).map (List.filter (fun c => !pyIsSpace c)) :=
    List.map_congr_left (fun l _ => filter_pyStrip l)
  rw [hmap]
  refine flatten_map_filter_splitRuns ?_ text
  intro c hc
  have h2 : c = '\n' := of_decide_eq_true hc
  rw [h2]
  decide

/-- Length of the longest blank-line-delimited paragraph of a text. -/
def maxParaLen (text : List Char) : Nat :=
  (blankParasRaw text).foldr (fun p m => max p.length m) 0

theorem le_foldr_max {l : List (List Char)} {x : List Char} (hx : x ∈ l) :
    x.length ≤ l.foldr (fun p m => max p.length m) 0 := by
  induction l with
  | nil => cases hx
  | cons a l ih =>
    rcases List.mem_cons.mp hx with rfl | h
    · exact le_max_left _ _
    · exact le_trans (ih h) (le_max_right _ _)

/-- Every paragraph the chunker works on (a stripped non-blank line) is no
longer than the longest blank-line-delimited paragraph of the text. -/
theorem chunkParagraphs_length_le (text : List Char) :
    ∀ q ∈ chunkParagraphs text, q.length ≤ maxParaLen text := by
  intro q hq
  unfold chunkParagraphs at hq
  obtain ⟨hmem, hne⟩ := List.mem_filter.mp hq
  obtain ⟨line, hline, hq2⟩ := List.mem_map.mp hmem
  have hblank : (pyStrip line).isEmpty = false := by
    rw [hq2]
    simpa using hne
  obtain ⟨run, hrun, hlinerun⟩ :=
    @exists_run_of_mem (List Char) (fun l => (pyStrip l).isEmpty) line
      (splitRuns (fun c => decide (c = '\n')) text) hline hblank
  have hrun_ne : (!run.isEmpty) = true := by
    cases run with
    | nil => cases hlinerun
    | cons a r => simp
  have hpara : joinNL run ∈ blankParasRaw text := by
    unfold blankParasRaw
    exact List.mem_map_of_mem _ (List.mem_filter.mpr ⟨hrun, hrun_ne⟩)
  calc q.length ≤ line.length := by rw [← hq2]; exact length_pyStrip_le line
    _ ≤ (joinNL run).length := length_le_joinNL hlinerun
    _ ≤ maxParaLen text := le_foldr_max hpara

theorem chunkAux_length_le (size B : Nat) (ps : List (List Char))
    (hps : ∀ p ∈ ps, p.length ≤ B) :
    ∀ cur : List Char, cur.length ≤ max (size + 1) (B + 2) →
      ∀ c ∈ chunkAux size ps cur, c.length ≤ max (size + 1) (B + 2) := by
  induction ps with
  | nil =>
    intro cur hcur c hc
    simp only [chunkAux] at hc
    by_cases h : cur.isEmpty
    · rw [if_pos h] at hc
      cases hc
    · rw [if_neg h] at hc
      rw [List.mem_singleton.mp hc]
      exact le_trans (length_pyStrip_le cur) hcur
  | cons p ps ih =>
    intro cur hcur c hc
    have hp : p.length ≤ B := hps p (List.mem_cons_self _ _)
    have hps2 : ∀ q ∈ ps, q.length ≤ B := fun q hq => hps q (List.mem_cons_of_mem _ hq)
    simp only [chunkAux] at hc
    by_cases h : cur.length + p.length < size
    · rw [if_pos h] at hc
      refine ih hps2 _ ?_ c hc
      have hlen : (cur ++ p ++ nl2).length = cur.length + p.length + 2 := by
        simp [nl2]
        omega
      rw [hlen]
      exact le_trans (by omega) (le_max_left (size + 1) (B + 2))
    · rw [if_neg h] at hc
      rcases List.mem_append.mp hc with hc1 | hc2
      · by_cases hemp : cur.isEmpty
        · rw [if_pos hemp] at hc1
          cases hc1
        · rw [if_neg hemp] at hc1
          rw [List.mem_singleton.mp hc1]
          exact le_trans (length_pyStrip_le cur) hcur
      · refine ih hps2 _ ?_ c hc2
        have hlen : (p ++ nl2).length = p.length + 2 := by simp [nl2]
        rw [hlen]
        exact le_trans (by omega) (le_max_right (size + 1) (B + 2))

/-- Claim C4: when no blank-line-delimited paragraph of the input is longer
than `targetSize`, every chunk produced by `chunk_text` is no longer than
`targetSize` plus the length of one paragraph (the longest one) plus the
two-character paragraph separator. -/
theorem chunk_text_length_bound (text : List Char) (size ov : Nat)
    (hpara : ∀ p ∈ blankParasRaw text, p.length ≤ size) :
    ∀ c ∈ chunk_text text size ov, c.length ≤ size + maxParaLen text + 2 := by
  intro c hc
  have hb := chunkAux_length_le size (maxParaLen text) (chunkParagraphs text)
    (chunkParagraphs_length_le text) [] (by simp) c hc
  exact le_trans hb (max_le (by omega) (by omega))

/-- Counterexample to claim C3 as stated: the input `"a\nb"` has no blank line,
so the claimed blank-line splitting keeps `a` and `b` in one paragraph and
produces the chunk `"a\nb"`, while `chunk_text` splits at the lone newline and
produces the chunk `"a\n\nb"`. -/
theorem chunk_text_ne_chunk_text_spec :
    chunk_text ("a\nb").data 1000 200 ≠ chunk_text_spec ("a\nb").data 1000 := by
  decide

/-- Amended claim C3: `chunk_text` splits its input into paragraphs at every
newline (no blank line is required between paragraphs), discards
whitespace-only paragraphs, trims each, greedily accumulates paragraphs into a
running buffer, closes the non-empty buffer as a trimmed chunk exactly when
`len(buffer) + len(nextParagraph) >= targetSize` (starting a new buffer with
the pending paragraph; otherwise appending the paragraph plus a separator),
and flushes any non-empty remaining buffer as a final chunk. -/
theorem chunk_text_eq_amended (text : List Char) (size ov : Nat) :
    chunk_text text size ov = chunk_text_amended text size := by
  unfold chunk_text chunk_text_amended chunkParagraphs
  exact (chunkAux_foldl size _ [] []).symm

/-- Witness for claim C4 at a concrete input. -/
theorem chunk_text_length_bound_witness :
    (∀ p ∈ blankParasRaw ("ab\n\ncd").data, p.length ≤ 10) ∧
      ∀ c ∈ chunk_text ("ab\n\ncd").data 10 2,
        c.length ≤ 10 + maxParaLen ("ab\n\ncd").data + 2 :=
  ⟨by decide, chunk_text_length_bound ("ab\n\ncd").data 10 2 (by decide)⟩

/-! ## The retrieval service (`smart_server.py`) -/

/-- The `metadata` part of a loaded article file used by the server
(smart_server.py lines 97-98). -/
structure Metadata where
  title : List Char
  source_url : List Char
deriving DecidableEq

/-- One entry of an article's `chunks` list as persisted and loaded. -/
structure KChunk where
  id : List Char
  text : List Char
  index : Nat
deriving DecidableEq

/-- A loaded article record; the in-memory knowledge base `kunnskap` is its
list, in dictionary insertion order (= load order). -/
structure Artikkel where
  metadata : Metadata
  chunks : List KChunk
deriving DecidableEq

/-- One scored retrieval hit (the dict built at smart_server.py 95-100). -/
structure Resultat where
  tekst : List Char
  kilde : List Char
  url : List Char
  score : Nat
deriving DecidableEq

/-- `SYNONYMER` (smart_server.py lines 36-47). -/
def SYNONYMER : List (List Char × List (List Char)) := [
  (("øyestyring").data,
    [("eye tracking").data, ("gaze").data, ("blikk").data, ("eye-tracking").data,
     ("øyesporing").data]),
  (("øyesporing").data,
    [("eye tracking").data, ("gaze tracking").data, ("øyestyring").data]),
  (("blikk").data, [("gaze").data, ("eye").data, ("øye").data, ("looking").data]),
  (("hjelpemiddel").data,
    [("assistive technology").data, ("assistive device").data, ("aid").data,
     ("communication device").data]),
  (("als").data,
    [("amyotrophic lateral sclerosis").data, ("amyotrofisk lateralsklerose").data,
     ("lou gehrig").data]),
  (("kommunikasjon").data,
    [("communication").data, ("aac").data, ("augmentative").data, ("alternative").data]),
  (("handicap").data,
    [("disability").data, ("funksjonshemning").data, ("impairment").data]),
  (("tale").data, [("speech").data, ("stemme").data, ("voice").data]),
  (("låst").data, [("locked-in").data, ("låsning").data, ("locked in").data]),
  (("tobii").data, [("eye tracker").data, ("øyesporing").data, ("gaze interaction").data])]

/-- `DOMENE_ORD` (smart_server.py lines 50-57). -/
def DOMENE_ORD : List (List Char) := [
  ("øye").data, ("eye").data, ("gaze").data, ("blikk").data, ("sporing").data,
  ("tracking").data, ("styring").data,
  ("als").data, ("lou gehrig").data, ("lateralsklerose").data, ("scleros").data,
  ("hjelpemiddel").data, ("assistive").data, ("kommunikasjon").data,
  ("communication").data, ("aac").data,
  ("handicap").data, ("disability").data, ("funksjonshemning").data,
  ("låsning").data, ("locked").data,
  ("tobii").data, ("dynavox").data, ("irisbond").data, ("tellus").data, ("acapela").data,
  ("stemme").data, ("tale").data, ("språk").data, ("language").data,
  ("snakke").data, ("speak").data]

/-- `er_domenesporsmal` (smart_server.py lines 68-71): true iff some domain
word occurs as a substring of the lowercased question. -/
def er_domenesporsmal (sporsmal : List Char) : Bool :=
  DOMENE_ORD.any (fun ordet => pyIn ordet (pyLower sporsmal))

/-- `sporsmal.lower().split()` (smart_server.py line 75): lowercase, then split
on whitespace runs, discarding empty pieces. -/
def sokeord (sporsmal : List Char) : List (List Char) :=
  (splitRuns pyIsSpace (pyLower sporsmal)).filter (fun w => !w.isEmpty)

/-- Lookup in the synonym table (Python `ordet in SYNONYMER` / indexing). -/
def assocLookup (w : List Char) : List (List Char × List (List Char)) → Option (List (List Char))
  | [] => none
  | kv :: rest => if w = kv.1 then some kv.2 else assocLookup w rest

/-- `alle_ord` (smart_server.py lines 78-81): the token set plus every direct
synonym expansion of tokens that are table keys.  Python builds a `set`; its
iteration order is unspecified, but the chunk score below is a count over the
distinct members and does not depend on any order, so the set is modelled by
its duplicate-free member list. -/
def alle_ord (sporsmal : List Char) : List (List Char) :=
  (sokeord sporsmal ++
    (sokeord sporsmal).foldr
      (fun ordet acc => ((assocLookup ordet SYNONYMER).getD []) ++ acc) []).dedup

/-- The scoring loop over one chunk (smart_server.py lines 87-92). -/
def chunkScore (terms : List (List Char)) (tekst : List Char) : Nat :=
  terms.foldl (fun score ordet => if pyIn ordet (pyLower tekst) then score + 1 else score) 0

/-- The `resultater` list before sorting (smart_server.py lines 83-100):
article order, then chunk order; only chunks with positive score enter. -/
def resultater (sporsmal : List Char) (kunnskap : List Artikkel) : List Resultat :=
  kunnskap.flatMap (fun artikkel =>
    artikkel.chunks.filterMap (fun chunk =>
      if 0 < chunkScore (alle_ord sporsmal) chunk.text then
        some ⟨chunk.text, artikkel.metadata.title, artikkel.metadata.source_url,
          chunkScore (alle_ord sporsmal) chunk.text⟩
      else none))

/-- One step of a stable descending insertion by score: the new element passes
only over strictly larger scores, so earlier elements win ties. -/
def insertByScoreDesc (a : Resultat) : List Resultat → List Resultat
  | [] => [a]
  | b :: l => if a.score < b.score then b :: insertByScoreDesc a l else a :: b :: l

/-- The stable descending-by-score sort performed by
`resultater.sort(key=lambda x: x['score'], reverse=True)` (smart_server.py
line 103).  Python's sort is specified as stable with `reverse=True` applied to
the comparisons only, which on a finite list is extensionally this stable
insertion sort. -/
def sortByScoreDesc : List Resultat → List Resultat
  | [] => []
  | a :: l => insertByScoreDesc a (sortByScoreDesc l)

/-- `sok_lokal_kunnskap` (smart_server.py lines 73-104). -/
def sok_lokal_kunnskap (sporsmal : List Char) (kunnskap : List Artikkel) : List Resultat :=
  (sortByScoreDesc (resultater sporsmal kunnskap)).take 3

/-- A context entry handed to the answer generator (`fakta` entries, or the
no-facts sentinel dict of smart_server.py line 187). -/
structure Kontekst where
  tekst : List Char
  kilde : List Char
  url : List Char
deriving DecidableEq

/-- The neutral no-facts-found marker (smart_server.py line 187). -/
def ingenFaktaKontekst : Kontekst :=
  ⟨("Ingen spesifikke fakta funnet i kunnskapsbasen.").data, ("System").data, []⟩

/-- Context selection of the in-domain branch of `/spor` (smart_server.py
lines 179-188): the retrieved facts, or the neutral marker when none scored. -/
def kontekst_for_svar (sporsmal : List Char) (kunnskap : List Artikkel) : List Kontekst :=
  let fakta := sok_lokal_kunnskap sporsmal kunnskap
  if fakta.isEmpty then [ingenFaktaKontekst]
  else fakta.map (fun f => ⟨f.tekst, f.kilde, f.url⟩)

/-- Claim C6: the domain classifier returns true exactly when some term of the
static domain vocabulary occurs as a substring of the lowercased query — pure
substring matching, no tokenization — and the two example queries classify as
the spec says: "What is gaze tracking?" is in-domain, "What's the weather
today?" is out-of-domain. -/
theorem er_domenesporsmal_correct :
    (∀ sporsmal : List Char,
        er_domenesporsmal sporsmal = true ↔
          ∃ ordet ∈ DOMENE_ORD, Occurs ordet (pyLower sporsmal)) ∧
      er_domenesporsmal ("What is gaze tracking?").data = true ∧
      er_domenesporsmal ("What's the weather today?").data = false := by
  refine ⟨?_, by decide, by decide⟩
  intro sporsmal
  simp only [er_domenesporsmal, List.any_eq_true]
  constructor
  · rintro ⟨ordet, hmem, hin⟩
    exact ⟨ordet, hmem, (pyIn_iff _ _).mp hin⟩
  · rintro ⟨ordet, hmem, hocc⟩
    exact ⟨ordet, hmem, (pyIn_iff _ _).mpr hocc⟩

theorem mem_foldr_expansions {tokens : List (List Char)} {t : List Char} :
    t ∈ tokens.foldr (fun ordet acc => ((assocLookup ordet SYNONYMER).getD []) ++ acc) [] ↔
      ∃ k ∈ tokens, ∃ es, assocLookup k SYNONYMER = some es ∧ t ∈ es := by
  induction tokens with
  | nil => simp
  | cons a toks ih =>
    simp only [List.foldr_cons, List.mem_append, ih]
    constructor
    · rintro (h1 | h2)
      · cases hl : assocLookup a SYNONYMER with
        | none => rw [hl] at h1; cases h1
        | some es =>
          rw [hl] at h1
          exact ⟨a, List.mem_cons_self _ _, es, hl, by simpa using h1⟩
      · obtain ⟨k, hk, es, hes, ht⟩ := h2
        exact ⟨k, List.mem_cons_of_mem _ hk, es, hes, ht⟩
    · rintro ⟨k, hk, es, hes, ht⟩
      rcases List.mem_cons.mp hk with rfl | hk2
      · left
        rw [hes]
        simpa using ht
      · right
        exact ⟨k, hk2, es, hes, ht⟩

/-- Claim C7: query expansion splits the lowercased query on whitespace into a
duplicate-free token set and unions in, for each token that is a key of the
synonym table, all that key's expansion terms (whole phrases, never re-split,
and only one level — expansions of expansions are not taken); and expanding
"øyestyring" contains at least the six required terms. -/
theorem alle_ord_correct :
    (∀ sporsmal t : List Char,
        t ∈ alle_ord sporsmal ↔
          t ∈ sokeord sporsmal ∨
            ∃ k ∈ sokeord sporsmal, ∃ es, assocLookup k SYNONYMER = some es ∧ t ∈ es) ∧
      (∀ sporsmal : List Char, (alle_ord sporsmal).Nodup) ∧
      (("eye tracking").data ∈ alle_ord ("øyestyring").data ∧
        ("gaze").data ∈ alle_ord ("øyestyring").data ∧
        ("blikk").data ∈ alle_ord ("øyestyring").data ∧
        ("eye-tracking").data ∈ alle_ord ("øyestyring").data ∧
        ("øyesporing").data ∈ alle_ord ("øyestyring").data ∧
        ("øyestyring").data ∈ alle_ord ("øyestyring").data) := by
  refine ⟨?_, fun sporsmal => List.nodup_dedup _, by decide⟩
  intro sporsmal t
  unfold alle_ord
  rw [List.mem_dedup, List.mem_append, mem_foldr_expansions]

theorem foldl_count {α : Type} (p : α → Bool) (l : List α) :
    ∀ n : Nat, l.foldl (fun acc a => if p a then acc + 1 else acc) n = n + (l.filter p).length := by
  induction l with
  | nil =>
    intro n
    simp
  | cons a l ih =>
    intro n
    rw [List.foldl_cons, List.filter_cons]
    by_cases h : p a
    · rw [if_pos h, if_pos h, ih]
      simp
      omega
    · rw [if_neg h, if_neg h, ih]

/-- Number of distinct expanded-query terms occurring inside the (lowercased)
chunk text — the score described by claim C1. -/
def distinctMatchCount (sporsmal tekst : List Char) : Nat :=
  ((alle_ord sporsmal).filter (fun t => pyIn t (pyLower tekst))).length

theorem chunkScore_eq_distinctMatchCount (sporsmal tekst : List Char) :
    chunkScore (alle_ord sporsmal) tekst = distinctMatchCount sporsmal tekst := by
  unfold chunkScore distinctMatchCount
  have h := foldl_count (fun t => pyIn t (pyLower tekst)) (alle_ord sporsmal) 0
  rw [Nat.zero_add] at h
  exact h

theorem insertByScoreDesc_perm (a : Resultat) (l : List Resultat) :
    List.Perm (insertByScoreDesc a l) (a :: l) := by
  induction l with
  | nil => exact List.Perm.refl _
  | cons b l ih =>
    simp only [insertByScoreDesc]
    by_cases h : a.score < b.score
    · rw [if_pos h]
      exact List.Perm.trans (List.Perm.cons b ih) (List.Perm.swap a b l)
    · rw [if_neg h]

theorem sortByScoreDesc_perm (l : List Resultat) : List.Perm (sortByScoreDesc l) l := by
  induction l with
  | nil => exact List.Perm.refl _
  | cons a l ih =>
    exact List.Perm.trans (insertByScoreDesc_perm a (sortByScoreDesc l)) (List.Perm.cons a ih)

theorem mem_resultater {sporsmal : List Char} {kunnskap : List Artikkel} {r : Resultat}
    (hr : r ∈ resultater sporsmal kunnskap) :
    ∃ artikkel ∈ kunnskap, ∃ chunk ∈ artikkel.chunks,
      r.tekst = chunk.text ∧ r.score = distinctMatchCount sporsmal chunk.text ∧ 0 < r.score := by
  unfold resultater at hr
  obtain ⟨artikkel, ha, hmem⟩ := List.mem_flatMap.mp hr
  obtain ⟨chunk, hchunk, hsome⟩ := List.mem_filterMap.mp hmem
  by_cases h : 0 < chunkScore (alle_ord sporsmal) chunk.text
  · rw [if_pos h] at hsome
    injection hsome with hsome
    refine ⟨artikkel, ha, chunk, hchunk, ?_, ?_, ?_⟩
    · rw [← hsome]
    · rw [← hsome]
      exact chunkScore_eq_distinctMatchCount sporsmal chunk.text
    · rw [← hsome]
      exact h
  · rw [if_neg h] at hsome
    cases hsome

/-- Claim C1: every result the retriever returns stems from a chunk of a loaded
article and carries as score exactly the number of distinct expanded-query
terms that occur as substrings of the lowercased chunk text (the expanded term
list holds no duplicates, so each distinct term counts at most once), and a
zero-score chunk never appears: every returned score is positive. -/
theorem sok_lokal_kunnskap_scores (sporsmal : List Char) (kunnskap : List Artikkel)
    (r : Resultat) (hr : r ∈ sok_lokal_kunnskap sporsmal kunnskap) :
    (∃ artikkel ∈ kunnskap, ∃ chunk ∈ artikkel.chunks,
        r.tekst = chunk.text ∧ r.score = distinctMatchCount sporsmal chunk.text) ∧
      0 < r.score ∧ (alle_ord sporsmal).Nodup := by
  have hr2 : r ∈ resultater sporsmal kunnskap := by
    have h1 : r ∈ sortByScoreDesc (resultater sporsmal kunnskap) :=
      (List.take_sublist 3 _).subset hr
    exact (sortByScoreDesc_perm _).mem_iff.mp h1
  obtain ⟨artikkel, ha, chunk, hc, ht, hs, hpos⟩ := mem_resultater hr2
  exact ⟨⟨artikkel, ha, chunk, hc, ht, hs⟩, hpos, List.nodup_dedup _⟩

/-- A two-chunk knowledge base used to witness the retrieval claims (the
end-to-end example of spec §8). -/
def vitneKB : List Artikkel :=
  [⟨⟨("Eye tracking").data, ("https://en.wikipedia.org/wiki/Eye_tracking").data⟩,
    [⟨("Eye_tracking_0").data, ("Eye tracking uses infrared cameras.").data, 0⟩,
     ⟨("Eye_tracking_1").data, ("ALS affects motor neurons.").data, 1⟩]⟩]

/-- Witness for claim C1 at the concrete query "how does eye tracking work". -/
theorem sok_lokal_kunnskap_scores_witness :
    (⟨("Eye tracking uses infrared cameras.").data, ("Eye tracking").data,
        ("https://en.wikipedia.org/wiki/Eye_tracking").data, 2⟩ : Resultat) ∈
        sok_lokal_kunnskap ("how does eye tracking work").data vitneKB ∧
      ((∃ artikkel ∈ vitneKB, ∃ chunk ∈ artikkel.chunks,
          (("Eye tracking uses infrared cameras.").data : List Char) = chunk.text ∧
            2 = distinctMatchCount ("how does eye tracking work").data chunk.text) ∧
        0 < 2 ∧ (alle_ord ("how does eye tracking work").data).Nodup) :=
  ⟨by decide,
    sok_lokal_kunnskap_scores ("how does eye tracking work").data vitneKB
      ⟨("Eye tracking uses infrared cameras.").data, ("Eye tracking").data,
        ("https://en.wikipedia.org/wiki/Eye_tracking").data, 2⟩ (by decide)⟩

theorem sorted_insertByScoreDesc (a : Resultat) {l : List Resultat}
    (h : List.Sorted (fun x y : Resultat => y.score ≤ x.score) l) :
    List.Sorted (fun x y : Resultat => y.score ≤ x.score) (insertByScoreDesc a l) := by
  induction l with
  | nil => simp [insertByScoreDesc]
  | cons b l ih =>
    rw [List.sorted_cons] at h
    obtain ⟨hb, hl⟩ := h
    simp only [insertByScoreDesc]
    by_cases hab : a.score < b.score
    · rw [if_pos hab, List.sorted_cons]
      refine ⟨?_, ih hl⟩
      intro x hx
      rcases List.mem_cons.mp ((insertByScoreDesc_perm a l).mem_iff.mp hx) with rfl | hxl
      · exact le_of_lt hab
      · exact hb x hxl
    · rw [if_neg hab, List.sorted_cons]
      push_neg at hab
      refine ⟨?_, List.sorted_cons.mpr ⟨hb, hl⟩⟩
      intro x hx
      rcases List.mem_cons.mp hx with rfl | hxl
      · exact hab
      · exact le_trans (hb x hxl) hab

theorem sorted_sortByScoreDesc (l : List Resultat) :
    List.Sorted (fun x y : Resultat => y.score ≤ x.score) (sortByScoreDesc l) := by
  induction l with
  | nil => simp [sortByScoreDesc]
  | cons a l ih => exact sorted_insertByScoreDesc a ih

theorem filter_insertByScoreDesc (s : Nat) (a : Resultat) (l : List Resultat) :
    (insertByScoreDesc a l).filter (fun r => decide (r.score = s)) =
      if a.score = s then a :: l.filter (fun r => decide (r.score = s))
      else l.filter (fun r => decide (r.score = s)) := by
  induction l with
  | nil =>
    simp only [insertByScoreDesc, List.filter_cons, List.filter_nil]
    by_cases h : a.score = s
    · simp [h]
    · simp [h]
  | cons b l ih =>
    simp only [insertByScoreDesc]
    by_cases hab : a.score < b.score
    · rw [if_pos hab, List.filter_cons, ih]
      by_cases hb : b.score = s
      · by_cases ha : a.score = s
        · omega
        · simp [hb, ha]
      · by_cases ha : a.score = s
        · simp [hb, ha]
        · simp [hb, ha]
    · rw [if_neg hab, List.filter_cons, List.filter_cons]
      by_cases ha : a.score = s
      · simp [ha]
      · simp [ha]

theorem filter_sortByScoreDesc (s : Nat) (l : List Resultat) :
    (sortByScoreDesc l).filter (fun r => decide (r.score = s)) =
      l.filter (fun r => decide (r.score = s)) := by
  induction l with
  | nil => rfl
  | cons a l ih =>
    simp only [sortByScoreDesc]
    rw [filter_insertByScoreDesc, List.filter_cons]
    by_cases h : a.score = s
    · rw [if_pos h, ih]
      simp [h]
    · rw [if_neg h, ih]
      simp [h]

theorem filter_take_isPrefix {α : Type} (p : α → Bool) (n : Nat) (l : List α) :
    (l.take n).filter p <+: l.filter p :=
  ⟨(l.drop n).filter p, by rw [← List.filter_append, List.take_append_drop]⟩

theorem resultater_eq_nil_of_zero {sporsmal : List Char} {kunnskap : List Artikkel}
    (h : ∀ artikkel ∈ kunnskap, ∀ chunk ∈ artikkel.chunks,
      distinctMatchCount sporsmal chunk.text = 0) :
    resultater sporsmal kunnskap = [] := by
  unfold resultater
  rw [List.flatMap_eq_nil_iff]
  intro artikkel ha
  rw [List.filterMap_eq_nil_iff]
  intro chunk hc
  have hz : chunkScore (alle_ord sporsmal) chunk.text = 0 := by
    rw [chunkScore_eq_distinctMatchCount]
    exact h artikkel ha chunk hc
  rw [if_neg (by omega)]

/-- Claim C2: retrieval results are sorted non-increasingly by score; for every
score value the results of that score form a prefix of the insertion-order
(article order, then chunk order) entries of that score, so ties keep their
prior relative order under the stable sort; at most `topN = 3` results are
returned; and when no chunk scores above zero the result is the empty list — a
non-error outcome for which the `/spor` endpoint substitutes the neutral
no-facts-found context marker. -/
theorem sok_lokal_kunnskap_ordering (sporsmal : List Char) (kunnskap : List Artikkel) :
    List.Sorted (fun x y : Resultat => y.score ≤ x.score)
        (sok_lokal_kunnskap sporsmal kunnskap) ∧
      (∀ s : Nat,
        (sok_lokal_kunnskap sporsmal kunnskap).filter (fun r => decide (r.score = s)) <+:
          (resultater sporsmal kunnskap).filter (fun r => decide (r.score = s))) ∧
      (sok_lokal_kunnskap sporsmal kunnskap).length ≤ 3 ∧
      ((∀ artikkel ∈ kunnskap, ∀ chunk ∈ artikkel.chunks,
          distinctMatchCount sporsmal chunk.text = 0) →
        sok_lokal_kunnskap sporsmal kunnskap = [] ∧
          kontekst_for_svar sporsmal kunnskap = [ingenFaktaKontekst]) := by
  refine ⟨?_, ?_, ?_, ?_⟩
  · exact (sorted_sortByScoreDesc (resultater sporsmal kunnskap)).sublist
      (List.take_sublist 3 _)
  · intro s
    have h1 := filter_take_isPrefix (fun r : Resultat => decide (r.score = s)) 3
      (sortByScoreDesc (resultater sporsmal kunnskap))
    rw [filter_sortByScoreDesc] at h1
    exact h1
  · exact le_trans (List.length_take_le 3 _) (le_refl 3)
  · intro h
    have h0 := resultater_eq_nil_of_zero h
    have h2 : sok_lokal_kunnskap sporsmal kunnskap = [] := by
      unfold sok_lokal_kunnskap
      rw [h0]
      rfl
    refine ⟨h2, ?_⟩
    unfold kontekst_for_svar
    rw [h2]
    rfl

/-- Witness for claim C2 at a concrete query and knowledge base with no
matching chunk. -/
theorem sok_lokal_kunnskap_ordering_witness :
    List.Sorted (fun x y : Resultat => y.score ≤ x.score)
        (sok_lokal_kunnskap ("xyzzy").data vitneKB) ∧
      ((sok_lokal_kunnskap ("xyzzy").data vitneKB).filter (fun r => decide (r.score = 2)) <+:
        (resultater ("xyzzy").data vitneKB).filter (fun r => decide (r.score = 2))) ∧
      (sok_lokal_kunnskap ("xyzzy").data vitneKB).length ≤ 3 ∧
      (sok_lokal_kunnskap ("xyzzy").data vitneKB = [] ∧
        kontekst_for_svar ("xyzzy").data vitneKB = [ingenFaktaKontekst]) :=
  have h := sok_lokal_kunnskap_ordering ("xyzzy").data vitneKB
  ⟨h.1, h.2.1 2, h.2.2.1, h.2.2.2 (by decide)⟩

/-! ## Persistence (`hent_wikipedia.py` 84-139) -/

/-- Python's `\w` word-character class as used by `re.sub(r'[^\w\s-]', '', ...)`
(hent_wikipedia.py line 91), modelled for this repository's character
repertoire: ASCII alphanumerics, the underscore, and the Norwegian letters. -/
def pyIsWordChar (c : Char) : Bool :=
  c.isAlphanum || c = '_' || c = 'æ' || c = 'ø' || c = 'å' || c = 'Æ' || c = 'Ø' || c = 'Å'

/-- What the word "alphanumeric" in claim C8 denotes for the same repertoire:
letters and digits, without the underscore. -/
def specIsAlphanum (c : Char) : Bool :=
  c.isAlphanum || c = 'æ' || c = 'ø' || c = 'å' || c = 'Æ' || c = 'Ø' || c = 'Å'

/-- `safe_title` (hent_wikipedia.py line 91):
`re.sub(r'[^\w\s-]', '', title).replace(' ', '_')` — keep word characters,
whitespace and hyphens, then replace each space (only the space character, as
`str.replace(' ', '_')` does) with an underscore. -/
def safe_title (title : List Char) : List Char :=
  (title.filter (fun c => pyIsWordChar c || pyIsSpace c || c = '-')).map
    (fun c => if c = ' ' then '_' else c)

/-- The key (file stem) under which an article is persisted and later loaded:
`f"{language}_{safe_title}"` (hent_wikipedia.py line 92; smart_server.py line
65 keys `kunnskap` by the same stem). -/
def article_file_key (language title : List Char) : List Char :=
  language ++ '_' :: safe_title title

/-- Modelled from the words of claim C8: a sanitization that removes every
character that is not alphanumeric, whitespace, or hyphen (hence also removes
underscores) and then replaces spaces with underscores.  This is the
claim-side definition, to be compared with `article_file_key`. -/
def sanitize_spec (title : List Char) : List Char :=
  (title.filter (fun c => specIsAlphanum c || pyIsSpace c || c = '-')).map
    (fun c => if c = ' ' then '_' else c)

def article_file_key_spec (language title : List Char) : List Char :=
  language ++ '_' :: sanitize_spec title

/-- Counterexample to claim C8 as stated: for the title `"a_b"` the code keeps
the underscore (Python's `\w` includes it), giving the key `"en_a_b"`, while
the claimed sanitization would strip it, giving `"en_ab"`. -/
theorem article_file_key_ne_spec :
    article_file_key ("en").data ("a_b").data ≠
      article_file_key_spec ("en").data ("a_b").data := by
  decide

/-- Amended claim C8's sanitizer, following the amended wording — remove every
character that is not alphanumeric, underscore, whitespace, or hyphen, then
replace spaces with underscores — written as a single right fold. -/
def sanitize_amended (title : List Char) : List Char :=
  title.foldr
    (fun c acc =>
      if pyIsWordChar c || pyIsSpace c || c = '-' then
        (if c = ' ' then '_' else c) :: acc
      else acc) []

theorem filter_map_eq_foldr {α β : Type} (p : α → Bool) (f : α → β) (l : List α) :
    (l.filter p).map f = l.foldr (fun c acc => if p c then f c :: acc else acc) [] := by
  induction l with
  | nil => rfl
  | cons a l ih =>
    rw [List.filter_cons, List.foldr_cons]
    by_cases h : p a
    · rw [if_pos h, List.map_cons, ih, if_pos h]
    · rw [if_neg h, ih, if_neg h]

/-- Amended claim C8: the persisted key is `{language}_{sanitized title}` where
sanitization removes every character that is not alphanumeric, underscore,
whitespace, or hyphen and then replaces spaces with underscores; for a fixed
title and language the key is a single fixed value (the sanitizer is a pure
function, so the key is stable across runs). -/
theorem article_file_key_eq_amended (language title : List Char) :
    article_file_key language title = language ++ '_' :: sanitize_amended title := by
  unfold article_file_key safe_title sanitize_amended
  rw [filter_map_eq_foldr]

/-- The page object decoded from a successful encyclopedia API response. -/
structure WikiPage where
  title : List Char
  fullurl : List Char
  extract : List Char
  categories : List (List Char)
deriving DecidableEq

/-- Outcome of the HTTP call plus JSON decoding inside `fetch_article`: either
the call raised (network or decoding error), or the API answered with pages
whose first key is `pageId` — the id `"-1"` meaning no matching page. -/
inductive ApiOutcome where
  | raisedErr : ApiOutcome
  | response : List Char → WikiPage → ApiOutcome
deriving DecidableEq

/-- The article dict returned by a successful `fetch_article`. -/
structure ArticleData where
  title : List Char
  language : List Char
  url : List Char
  extract : List Char
  categories : List (List Char)
  length : Nat
deriving DecidableEq

/-- `fetch_article` (hent_wikipedia.py lines 16-61): the whole body sits in a
`try/except` whose handler returns `None`, so a raised network error yields
`None` rather than propagating, and the not-found page id `"-1"` also returns
`None`; otherwise the article record is built from the page. -/
def fetch_article (lang : List Char) (outcome : ApiOutcome) : Option ArticleData :=
  match outcome with
  | ApiOutcome.raisedErr => none
  | ApiOutcome.response pageId page =>
    if pageId = ("-1").data then none
    else some ⟨page.title, lang, page.fullurl, page.extract, page.categories,
      page.extract.length⟩

/-- One chunk entry of the persisted JSON (hent_wikipedia.py lines 107-114). -/
structure SavedChunk where
  id : List Char
  text : List Char
  index : Nat
deriving DecidableEq

/-- The structured record written by `save_article` (lines 98-116). -/
structure SavedArticle where
  title : List Char
  language : List Char
  source_url : List Char
  categories : List (List Char)
  total_length : Nat
  chunk_count : Nat
  chunks : List SavedChunk
  full_text : List Char
deriving DecidableEq

/-- `save_article` (hent_wikipedia.py lines 84-121): the persisted file name
and the structured record written into it. -/
def save_article (a : ArticleData) : List Char × SavedArticle :=
  (a.language ++ '_' :: safe_title a.title ++ (".json").data,
    ⟨a.title, a.language, a.url, a.categories, a.length,
      (chunk_text a.extract 1000 200).length,
      (chunk_text a.extract 1000 200).enum.map
        (fun ic => ⟨safe_title a.title ++ '_' :: (Nat.repr ic.1).data, ic.2, ic.1⟩),
      a.extract⟩)

/-- One entry of `ARTICLES_TO_FETCH` (hent_wikipedia.py lines 142-160). -/
structure ConfigItem where
  title : List Char
  lang : List Char
deriving DecidableEq

/-- `build_knowledge_base` (hent_wikipedia.py lines 123-139): iterate the
configured articles, fetch each one (the per-article API outcome supplied by
the `oracle`), save the successful ones and skip the failures without
aborting the batch.  Returns the persisted files in configuration order. -/
def build_knowledge_base (oracle : ConfigItem → ApiOutcome)
    (config : List ConfigItem) : List (List Char × SavedArticle) :=
  config.filterMap (fun item => (fetch_article item.lang (oracle item)).map save_article)

/-- Five configured articles and an oracle that reports not-found for exactly
one of them, for the concrete part of claim C9. -/
def demoConfig : List ConfigItem :=
  [⟨("Eye tracking").data, ("en").data⟩, ⟨("Gaze").data, ("en").data⟩,
   ⟨("Assistive technology").data, ("en").data⟩, ⟨("Øyesporing").data, ("no").data⟩,
   ⟨("Hjelpemiddel").data, ("no").data⟩]

def demoOracle : ConfigItem → ApiOutcome := fun item =>
  if item.title = ("Gaze").data then
    ApiOutcome.response ("-1").data ⟨[], [], [], []⟩
  else
    ApiOutcome.response ("1234").data
      ⟨item.title, ("https://example.org").data, ("Kort tekst.").data, []⟩

/-- Claim C9: `fetch_article` returns `None` — it cannot raise, its `except`
branch having been folded into the `Option` result — both when the network
call errors and when the API reports no matching page (page id `-1`); and the
batch persists a record exactly for every configured article whose fetch
succeeds, so one failing article among five still leaves the other four
persisted. -/
theorem fetch_article_failure_tolerant :
    (∀ lang : List Char, fetch_article lang ApiOutcome.raisedErr = none) ∧
      (∀ (lang : List Char) (page : WikiPage),
        fetch_article lang (ApiOutcome.response ("-1").data page) = none) ∧
      (∀ (oracle : ConfigItem → ApiOutcome) (config : List ConfigItem)
          (file : List Char × SavedArticle),
        file ∈ build_knowledge_base oracle config ↔
          ∃ item ∈ config, ∃ a, fetch_article item.lang (oracle item) = some a ∧
            file = save_article a) ∧
      (build_knowledge_base demoOracle demoConfig).length = 4 := by
  refine ⟨fun lang => rfl, fun lang page => by simp [fetch_article], ?_, by decide⟩
  intro oracle config file
  unfold build_knowledge_base
  rw [List.mem_filterMap]
  constructor
  · rintro ⟨item, hitem, hmap⟩
    rcases hoc : fetch_article item.lang (oracle item) with _ | a
    · rw [hoc] at hmap
      cases hmap
    · rw [hoc] at hmap
      rw [Option.map_some'] at hmap
      injection hmap with hmap
      exact ⟨item, hitem, a, hoc, hmap.symm⟩
  · rintro ⟨item, hitem, a, ha, rfl⟩
    refine ⟨item, hitem, ?_⟩
    rw [ha, Option.map_some']

/-! ## The completion client global and the answer paths (smart_server.py
10-28, 106-153, 164-207) -/

/-- The OpenAI client object, identified by the key it was created with. -/
structure OpenAIClient where
  api_key : List Char
deriving DecidableEq

/-- The process environment as the server reads it. -/
structure Env where
  OPENAI_API_KEY : Option (List Char)

/-- Outcome of one `chat.completions.create` call, supplied by an oracle:
either a completion text or a raised exception with its message. -/
inductive CompletionOutcome where
  | ok : List Char → CompletionOutcome
  | raised : List Char → CompletionOutcome

/-- `get_openai_client` (smart_server.py lines 15-23): return the module-global
client, creating it from the environment key on first use — raising (modelled
as `Except.error`) when the key is unset.  The result carries the possibly
updated global. -/
def get_openai_client (env : Env) (client : Option OpenAIClient) :
    Except (List Char) (OpenAIClient × Option OpenAIClient) :=
  match client with
  | some c => Except.ok (c, some c)
  | none =>
    match env.OPENAI_API_KEY with
    | none => Except.error ("OPENAI_API_KEY ikke satt").data
    | some key => Except.ok (⟨key⟩, some ⟨key⟩)

/-- The fixed apology of `generer_svar_generell` (smart_server.py line 153). -/
def apologyGenerell : List Char :=
  ("Beklager, jeg har problemer med å svare akkurat nå.").data

/-- `generer_svar_generell` (smart_server.py lines 138-153): the body reads the
module-global `client` directly (line 142) and never calls
`get_openai_client`, so when the global is still `None` the attribute access
on `None` raises and the `except` branch returns the fixed apology; with an
existing client the completion text is returned, a raised completion call
again giving the apology. -/
def generer_svar_generell (client : Option OpenAIClient)
    (complete : OpenAIClient → List Char → CompletionOutcome)
    (sporsmal : List Char) : List Char :=
  match client with
  | none => apologyGenerell
  | some c =>
    match complete c sporsmal with
    | CompletionOutcome.ok text => text
    | CompletionOutcome.raised _ => apologyGenerell

/-- `generer_svar_med_kunnskap` (smart_server.py lines 106-136): the in-domain
path and the only caller of `get_openai_client`; its `except` branch yields
the technical-trouble message carrying the exception text.  Returns the
answer and the updated module-global client. -/
def generer_svar_med_kunnskap (env : Env) (client : Option OpenAIClient)
    (complete : OpenAIClient → List Char → CompletionOutcome)
    (sporsmal : List Char) (_kontekst : List Kontekst) :
    List Char × Option OpenAIClient :=
  match get_openai_client env client with
  | Except.error e =>
    (("Beklager, jeg har tekniske problemer. Feil: ").data ++ e, client)
  | Except.ok (c, client2) =>
    match complete c sporsmal with
    | CompletionOutcome.ok text => (text, client2)
    | CompletionOutcome.raised e =>
      (("Beklager, jeg har tekniske problemer. Feil: ").data ++ e, client2)

/-- The `/spor` endpoint's answer computation (smart_server.py lines 164-207):
domain check, retrieval with the no-facts fallback on the in-domain branch,
plain `generer_svar_generell` otherwise; returns the answer text and the
updated module-global client. -/
def chat_endpoint_svar (env : Env) (client : Option OpenAIClient)
    (complete : OpenAIClient → List Char → CompletionOutcome)
    (kunnskap : List Artikkel) (sporsmal : List Char) :
    List Char × Option OpenAIClient :=
  if er_domenesporsmal sporsmal then
    generer_svar_med_kunnskap env client complete sporsmal
      (kontekst_for_svar sporsmal kunnskap)
  else (generer_svar_generell client complete sporsmal, client)

/-- Claim C10: the out-of-domain path reads the module-global client directly
and never initializes it, and that global is only ever set by the in-domain
path; so on a fresh server (global client `None`) every out-of-domain request
answers with the fixed apology string — whatever the completion oracle would
have answered and even though the API key environment variable is set, as
witnessed by `get_openai_client` succeeding on the very same state — and the
global stays `None` afterwards. -/
theorem generell_apology_when_client_none (env : Env) (key : List Char)
    (complete : OpenAIClient → List Char → CompletionOutcome)
    (kunnskap : List Artikkel) (sporsmal : List Char)
    (hkey : env.OPENAI_API_KEY = some key)
    (hdom : er_domenesporsmal sporsmal = false) :
    chat_endpoint_svar env none complete kunnskap sporsmal = (apologyGenerell, none) ∧
      get_openai_client env none = Except.ok (⟨key⟩, some ⟨key⟩) := by
  constructor
  · simp [chat_endpoint_svar, hdom, generer_svar_generell]
  · simp [get_openai_client, hkey]

/-- Witness for claim C10: a fresh server with the key set still answers an
out-of-domain question with the apology. -/
theorem generell_apology_when_client_none_witness :
    chat_endpoint_svar ⟨some ("sk-test").data⟩ none
        (fun _ _ => CompletionOutcome.ok ("hei").data) [] ("hva skjer i dag").data =
        (apologyGenerell, none) ∧
      get_openai_client ⟨some ("sk-test").data⟩ none =
        Except.ok (⟨("sk-test").data⟩, some ⟨("sk-test").data⟩) :=
  generell_apology_when_client_none ⟨some ("sk-test").data⟩ ("sk-test").data
    (fun _ _ => CompletionOutcome.ok ("hei").data) [] ("hva skjer i dag").data rfl
    (by decide)
